import Mathlib

/-!
Shallow embedding of `src/bin/mksample.rs` from the groupby-benchmark
repository, together with proofs about its line and sample generation.

Modelling conventions:

* The character generator `character_generator: impl Fn() -> char` is modelled
  as the stream `cg : Nat → Char` of the successive values it returns; the
  random generator behind `fastrand::usize` is modelled as the stream
  `rnd : Nat → Nat` of raw draws.  `GenState` records how many characters,
  respectively draws, have been consumed so far, so that repeated calls read
  successive stream elements, exactly as repeated calls to the Rust closures
  observe successive generator outputs.
* Rust `String` values are modelled as `List Char` (Rust `char` and Lean
  `Char` are both unicode scalar values).  `String::len` counts UTF-8 bytes,
  which `byteLen` reproduces via an explicit UTF-8 encoder.
* Rust panics are modelled as `Except` errors: the `assert_ne!` in
  `build_line` and the panic of `fastrand::usize` on an empty range are the
  condition the specification calls `InvalidLengthPolicy`; the overflow check
  of `usize` subtraction is made explicit by `checkedSub`, whose failure is
  the condition the specification calls `ArithmeticUnderflow`.
* The output sink (`impl Write`) is modelled by the returned list of
  characters: the concatenation, in order, of every line passed to
  `write_all`.  Buffering and flushing do not change that byte sequence.
-/

namespace Mksample

/-- Mirrors `enum LineLength` (src lines 15-21): the bounds for the lengths of
lines in a sample file, excluding the newline character.  `Range lo hi` stands
for the half-open Rust range `lo..hi`. -/
inductive LineLength where
  | Fixed : Nat → LineLength
  | Range : Nat → Nat → LineLength
deriving DecidableEq

/-- Mirrors `enum SampleLength` (src lines 25-28): the length of the output as
either a number of lines or a number of characters, newlines included. -/
inductive SampleLength where
  | Lines : Nat → SampleLength
  | Characters : Nat → SampleLength
deriving DecidableEq

/-- Mirrors `struct Line` (src lines 167-173): a fully formed line including
the newline, together with the length of the line in chars (including the
newline) that the Rust code stores alongside it. -/
structure Line where
  string : List Char
  length : Nat
deriving DecidableEq

/-- The panic conditions of the generator, under the names the specification
gives them.  `invalidLengthPolicy` is the `assert_ne!` panic of `build_line`
(src line 192) and the panic of `fastrand::usize` on an empty range;
`arithmeticUnderflow` is the subtract-with-overflow panic the comment at src
line 144 warns about. -/
inductive GenError where
  | invalidLengthPolicy
  | arithmeticUnderflow
deriving DecidableEq

/-- How many characters and how many random draws have been consumed so far
from the two ambient streams. -/
structure GenState where
  charIdx : Nat
  drawIdx : Nat
deriving DecidableEq

/-- The characters of one generated line: `n` payload characters read from the
character stream starting at index `base`, followed by the newline that
`build_line` pushes (src line 203). -/
def lineChars (cg : Nat → Char) (base n : Nat) : List Char :=
  ((List.range n).map fun i => cg (base + i)) ++ ['\n']

/-- Models `fastrand::usize(lo..hi)` applied to the next raw draw `d` of the
random stream: some value in `[lo, hi)` determined by `d`.  `fastrand` panics
when the range is empty (`hi ≤ lo`); the specification names that condition
`InvalidLengthPolicy`, so the panic is modelled as that error. -/
def fastrand_usize (lo hi d : Nat) : Except GenError Nat :=
  if lo < hi then .ok (lo + d % (hi - lo)) else .error .invalidLengthPolicy

/-- Mirrors `build_line` (src lines 180-206).  Under `Fixed n` it reads `n`
characters and appends the newline; under `Range lo hi` it first asserts
`lo ≠ hi` (src line 192), draws `length := fastrand::usize(lo..hi) + 1`
including the newline (src line 195), and reads `length - 1` characters
(src line 198).  The source pushes the newline once after the match; here the
append sits inside each branch of the returned value. -/
def build_line (ll : LineLength) (cg : Nat → Char) (rnd : Nat → Nat)
    (st : GenState) : Except GenError (Line × GenState) :=
  match ll with
  | .Fixed n =>
      .ok (⟨lineChars cg st.charIdx n, n + 1⟩, ⟨st.charIdx + n, st.drawIdx⟩)
  | .Range lo hi =>
      if lo = hi then .error .invalidLengthPolicy
      else
        match fastrand_usize lo hi (rnd st.drawIdx) with
        | .error e => .error e
        | .ok p =>
            let length := p + 1
            .ok (⟨lineChars cg st.charIdx (length - 1), length⟩,
              ⟨st.charIdx + (length - 1), st.drawIdx + 1⟩)

/-- The `max_line_length` bound computed inside `build_sample` (src lines
139-142): `n + 1` for a fixed length (plus one for the newline), and the
range end for a ranged length (the range is half open, so no further `+ 1`). -/
def max_line_length : LineLength → Nat
  | .Fixed n => n + 1
  | .Range _ hi => hi

/-- Rust `usize` subtraction `a - b` with the overflow check made explicit:
underflow is the panic the source comment at line 144 warns about. -/
def checkedSub (a b : Nat) : Except GenError Nat :=
  if b ≤ a then .ok (a - b) else .error .arithmeticUnderflow

/-- The `while chars_written + max_line_length < limit` loop of `build_sample`
(src lines 145-149), with explicit fuel.  Every generated line has length at
least 1 and an iteration requires `written < limit`, so the loop iterates at
most `limit` times; `build_sample` passes `limit` as fuel, which therefore
never runs out while the guard still holds.  Returns the characters written,
the final running total, and the final stream state. -/
def sampleLoop (ll : LineLength) (cg : Nat → Char) (rnd : Nat → Nat)
    (mll limit : Nat) :
    Nat → Nat → GenState → Except GenError (List Char × Nat × GenState)
  | 0, written, st => .ok ([], written, st)
  | fuel + 1, written, st =>
      if written + mll < limit then
        match build_line ll cg rnd st with
        | .error e => .error e
        | .ok (line, st2) =>
            match sampleLoop ll cg rnd mll limit fuel (written + line.length) st2 with
            | .error e => .error e
            | .ok (rest, w2, st3) => .ok (line.string ++ rest, w2, st3)
      else .ok ([], written, st)

/-- The `for _ in 0..n` loop of the `SampleLength::Lines` arm of
`build_sample` (src lines 128-133): build `n` lines and write each in order. -/
def linesLoop (ll : LineLength) (cg : Nat → Char) (rnd : Nat → Nat) :
    Nat → GenState → Except GenError (List Char × GenState)
  | 0, st => .ok ([], st)
  | n + 1, st =>
      match build_line ll cg rnd st with
      | .error e => .error e
      | .ok (line, st2) =>
          match linesLoop ll cg rnd n st2 with
          | .error e => .error e
          | .ok (rest, st3) => .ok (line.string ++ rest, st3)

/-- Mirrors `build_sample` (src lines 118-164).  The sink is modelled by the
returned list of characters: the concatenation of every line written, in
order.  In the `Characters limit` arm, the final-line payload computation
`limit - chars_written - 1` (src line 154) is performed with explicitly
checked subtraction. -/
def build_sample (ll : LineLength) (sl : SampleLength) (cg : Nat → Char)
    (rnd : Nat → Nat) : Except GenError (List Char) :=
  match sl with
  | .Lines n =>
      match linesLoop ll cg rnd n ⟨0, 0⟩ with
      | .error e => .error e
      | .ok (out, _) => .ok out
  | .Characters limit =>
      match sampleLoop ll cg rnd (max_line_length ll) limit limit 0 ⟨0, 0⟩ with
      | .error e => .error e
      | .ok (out, written, st) =>
          if written < limit then
            match checkedSub limit written with
            | .error e => .error e
            | .ok d =>
                match checkedSub d 1 with
                | .error e => .error e
                | .ok payloadLen =>
                    match build_line (.Fixed payloadLen) cg rnd st with
                    | .error e => .error e
                    | .ok (line, _) => .ok (out ++ line.string)
          else .ok out

/-- The UTF-8 encoding of one unicode scalar value, exactly as Rust
`String::push` stores it. -/
def charUtf8 (c : Char) : List Nat :=
  let n := c.toNat
  if n < 128 then [n]
  else if n < 2048 then [192 + n / 64, 128 + n % 64]
  else if n < 65536 then [224 + n / 4096, 128 + n / 64 % 64, 128 + n % 64]
  else [240 + n / 262144, 128 + n / 4096 % 64, 128 + n / 64 % 64, 128 + n % 64]

/-- The byte sequence `string.as_bytes()` of a modelled string. -/
def utf8Bytes (s : List Char) : List Nat :=
  (s.map charUtf8).flatten

/-- The byte length `string.len()` of a modelled string. -/
def byteLen (s : List Char) : Nat :=
  (utf8Bytes s).length

/-- A line length policy the specification calls valid: `Ranged` intervals
must be nonempty. -/
def ValidPolicy : LineLength → Prop
  | .Fixed _ => True
  | .Range lo hi => lo < hi

/-- Machine-word model of the `n + 1` length computations at src lines 140
and 186: `usize` addition wraps modulo `2 ^ w`, where `w` is the word width.
The unbounded model above uses mathematical `n + 1`, which agrees with this
whenever `n + 1` fits in a word. -/
def usizeSucc (w n : Nat) : Nat :=
  (n + 1) % 2 ^ w

/-- The 12 characters of `ccc\nccc\nccc\n`. -/
def ccc12 : List Char :=
  ['c', 'c', 'c', '\n', 'c', 'c', 'c', '\n', 'c', 'c', 'c', '\n']

/-! ## Basic lemmas about line characters and UTF-8 byte lengths -/

theorem lineChars_length (cg : Nat → Char) (base n : Nat) :
    (lineChars cg base n).length = n + 1 := by
  simp [lineChars]

theorem mem_lineChars (c : Char) (cg : Nat → Char) (base n : Nat)
    (h : c ∈ lineChars cg base n) : c = '\n' ∨ ∃ i, c = cg i := by
  rcases List.mem_append.mp h with h2 | h2
  · rcases List.mem_map.mp h2 with ⟨i, _, rfl⟩
    exact Or.inr ⟨base + i, rfl⟩
  · exact Or.inl (List.mem_singleton.mp h2)

theorem charUtf8_ascii (c : Char) (h : c.toNat < 128) : charUtf8 c = [c.toNat] := by
  simp [charUtf8, h]

theorem utf8Bytes_append (s t : List Char) :
    utf8Bytes (s ++ t) = utf8Bytes s ++ utf8Bytes t := by
  simp [utf8Bytes]

theorem byteLen_append (s t : List Char) :
    byteLen (s ++ t) = byteLen s + byteLen t := by
  simp [byteLen, utf8Bytes_append]

theorem byteLen_of_ascii (s : List Char) (h : ∀ c ∈ s, c.toNat < 128) :
    byteLen s = s.length := by
  induction s with
  | nil => rfl
  | cons c t ih =>
      have hc : charUtf8 c = [c.toNat] := charUtf8_ascii c (h c (by simp))
      have ht : byteLen t = t.length := ih fun x hx => h x (by simp [hx])
      simp [byteLen, utf8Bytes, hc] at ht ⊢
      omega

theorem utf8Bytes_terminator (s : List Char) :
    (utf8Bytes (s ++ ['\n'])).getLast? = some 10 := by
  rw [utf8Bytes_append]
  have h : utf8Bytes ['\n'] = [10] := rfl
  rw [h, List.getLast?_concat]

/-! ## Shape lemmas about `build_line` -/

theorem build_line_ok (ll : LineLength) (cg : Nat → Char) (rnd : Nat → Nat)
    (st : GenState) (line : Line) (st2 : GenState)
    (h : build_line ll cg rnd st = .ok (line, st2)) :
    line.string = lineChars cg st.charIdx (line.length - 1) ∧ 1 ≤ line.length := by
  cases ll with
  | Fixed n =>
      simp only [build_line, Except.ok.injEq, Prod.mk.injEq] at h
      cases h.1
      simp
  | Range lo hi =>
      rw [build_line] at h
      split at h
      · exact absurd h (by simp)
      · cases hf : fastrand_usize lo hi (rnd st.drawIdx) with
        | error e => rw [hf] at h; exact absurd h (by simp)
        | ok p =>
            rw [hf] at h
            simp only [Except.ok.injEq, Prod.mk.injEq] at h
            cases h.1
            simp

theorem build_line_le_max (ll : LineLength) (cg : Nat → Char) (rnd : Nat → Nat)
    (st : GenState) (line : Line) (st2 : GenState)
    (h : build_line ll cg rnd st = .ok (line, st2)) :
    line.length ≤ max_line_length ll := by
  cases ll with
  | Fixed n =>
      simp only [build_line, Except.ok.injEq, Prod.mk.injEq] at h
      cases h.1
      simp [max_line_length]
  | Range lo hi =>
      rw [build_line] at h
      split at h
      · exact absurd h (by simp)
      · cases hf : fastrand_usize lo hi (rnd st.drawIdx) with
        | error e => rw [hf] at h; exact absurd h (by simp)
        | ok p =>
            rw [hf] at h
            rw [fastrand_usize] at hf
            split at hf
            · rename_i hlt
              simp only [Except.ok.injEq] at hf
              simp only [Except.ok.injEq, Prod.mk.injEq] at h
              cases h.1
              have hm : rnd st.drawIdx % (hi - lo) < hi - lo :=
                Nat.mod_lt _ (by omega)
              simp only [max_line_length]
              omega
            · exact absurd hf (by simp)

theorem build_line_range_eq (lo hi : Nat) (cg : Nat → Char) (rnd : Nat → Nat)
    (st : GenState) (h : lo < hi) :
    build_line (.Range lo hi) cg rnd st =
      .ok (⟨lineChars cg st.charIdx (lo + rnd st.drawIdx % (hi - lo)),
            lo + rnd st.drawIdx % (hi - lo) + 1⟩,
        ⟨st.charIdx + (lo + rnd st.drawIdx % (hi - lo)), st.drawIdx + 1⟩) := by
  rw [build_line, fastrand_usize]
  simp [Nat.ne_of_lt h, h]

theorem build_line_ok_of_valid (ll : LineLength) (cg : Nat → Char)
    (rnd : Nat → Nat) (st : GenState) (h : ValidPolicy ll) :
    ∃ line st2, build_line ll cg rnd st = .ok (line, st2) := by
  cases ll with
  | Fixed n => exact ⟨_, _, rfl⟩
  | Range lo hi =>
      have hlt : lo < hi := h
      exact ⟨_, _, build_line_range_eq lo hi cg rnd st hlt⟩

theorem build_line_error (ll : LineLength) (cg : Nat → Char) (rnd : Nat → Nat)
    (st : GenState) (e : GenError)
    (h : build_line ll cg rnd st = .error e) : e = .invalidLengthPolicy := by
  cases ll with
  | Fixed n => exact absurd h (by simp [build_line])
  | Range lo hi =>
      rw [build_line] at h
      split at h
      · cases h
        rfl
      · cases hf : fastrand_usize lo hi (rnd st.drawIdx) with
        | error e2 =>
            rw [hf] at h
            cases h
            rw [fastrand_usize] at hf
            split at hf
            · exact absurd hf (by simp)
            · cases hf
              rfl
        | ok p =>
            rw [hf] at h
            simp at h

/-! ## Lemmas about the byte-count loop -/

theorem sampleLoop_invariant (ll : LineLength) (cg : Nat → Char)
    (rnd : Nat → Nat) (mll limit : Nat)
    (hb : ∀ st line st2, build_line ll cg rnd st = .ok (line, st2) →
      line.length ≤ mll) :
    ∀ fuel w0 st out w2 st2,
      sampleLoop ll cg rnd mll limit fuel w0 st = .ok (out, w2, st2) →
      out.length = w2 - w0 ∧ w0 ≤ w2 ∧ (w0 < limit → w2 < limit) ∧
        ∀ c ∈ out, c = '\n' ∨ ∃ i, c = cg i := by
  intro fuel
  induction fuel with
  | zero =>
      intro w0 st out w2 st2 h
      simp only [sampleLoop, Except.ok.injEq, Prod.mk.injEq] at h
      obtain ⟨rfl, rfl, rfl⟩ := h
      simp
  | succ fuel ih =>
      intro w0 st out w2 st2 h
      rw [sampleLoop] at h
      split at h
      · rename_i hguard
        split at h
        · simp at h
        · rename_i line stA hbl
          split at h
          · simp at h
          · rename_i rest wB stB hrest
            simp only [Except.ok.injEq, Prod.mk.injEq] at h
            obtain ⟨rfl, rfl, rfl⟩ := h
            obtain ⟨hlen, hle, hlt, hmem⟩ :=
              ih (w0 + line.length) stA rest wB stB hrest
            obtain ⟨hstr, hpos⟩ := build_line_ok ll cg rnd st line stA hbl
            have hsl : line.string.length = line.length := by
              rw [hstr, lineChars_length]
              omega
            have hmax : line.length ≤ mll := hb st line stA hbl
            refine ⟨?_, by omega, fun _ => hlt (by omega), ?_⟩
            · rw [List.length_append, hsl]
              omega
            · intro c hc
              rcases List.mem_append.mp hc with hc | hc
              · exact mem_lineChars c cg st.charIdx (line.length - 1) (hstr ▸ hc)
              · exact hmem c hc
      · simp only [Except.ok.injEq, Prod.mk.injEq] at h
        obtain ⟨rfl, rfl, rfl⟩ := h
        simp

theorem sampleLoop_ok_of_valid (ll : LineLength) (cg : Nat → Char)
    (rnd : Nat → Nat) (mll limit : Nat) (h : ValidPolicy ll) :
    ∀ fuel w0 st, ∃ out w2 st2,
      sampleLoop ll cg rnd mll limit fuel w0 st = .ok (out, w2, st2) := by
  intro fuel
  induction fuel with
  | zero => intro w0 st; exact ⟨_, _, _, rfl⟩
  | succ fuel ih =>
      intro w0 st
      by_cases hguard : w0 + mll < limit
      · obtain ⟨line, stA, hline⟩ := build_line_ok_of_valid ll cg rnd st h
        obtain ⟨rest, wB, stB, hrest⟩ := ih (w0 + line.length) stA
        refine ⟨line.string ++ rest, wB, stB, ?_⟩
        rw [sampleLoop, if_pos hguard]
        simp [hline, hrest]
      · exact ⟨[], w0, st, by rw [sampleLoop, if_neg hguard]⟩

theorem sampleLoop_error (ll : LineLength) (cg : Nat → Char) (rnd : Nat → Nat)
    (mll limit : Nat) :
    ∀ fuel w0 st e, sampleLoop ll cg rnd mll limit fuel w0 st = .error e →
      e = .invalidLengthPolicy := by
  intro fuel
  induction fuel with
  | zero => intro w0 st e h; exact absurd h (by simp [sampleLoop])
  | succ fuel ih =>
      intro w0 st e h
      rw [sampleLoop] at h
      split at h
      · split at h
        · rename_i e2 hbl
          simp only [Except.error.injEq] at h
          subst h
          exact build_line_error ll cg rnd st e2 hbl
        · rename_i line stA hbl
          split at h
          · rename_i e2 hrest
            simp only [Except.error.injEq] at h
            subst h
            exact ih (w0 + line.length) stA e2 hrest
          · simp at h
      · simp at h

/-! ## Lemmas about the line-count loop -/

theorem linesLoop_error (ll : LineLength) (cg : Nat → Char) (rnd : Nat → Nat) :
    ∀ k st e, linesLoop ll cg rnd k st = .error e → e = .invalidLengthPolicy := by
  intro k
  induction k with
  | zero => intro st e h; exact absurd h (by simp [linesLoop])
  | succ k ih =>
      intro st e h
      rw [linesLoop] at h
      split at h
      · rename_i e2 hbl
        simp only [Except.error.injEq] at h
        subst h
        exact build_line_error ll cg rnd st e2 hbl
      · rename_i line stA hbl
        split at h
        · rename_i e2 hrest
          simp only [Except.error.injEq] at h
          subst h
          exact ih stA e2 hrest
        · simp at h

theorem linesLoop_fixed (n : Nat) (cg : Nat → Char) (rnd : Nat → Nat) :
    ∀ k st, linesLoop (.Fixed n) cg rnd k st =
      .ok (((List.range k).map fun j => lineChars cg (st.charIdx + j * n) n).flatten,
        ⟨st.charIdx + k * n, st.drawIdx⟩) := by
  intro k
  induction k with
  | zero => intro st; simp [linesLoop]
  | succ k ih =>
      intro st
      rw [linesLoop]
      have hb : build_line (.Fixed n) cg rnd st =
          .ok (⟨lineChars cg st.charIdx n, n + 1⟩, ⟨st.charIdx + n, st.drawIdx⟩) := rfl
      simp only [hb, ih ⟨st.charIdx + n, st.drawIdx⟩]
      have hfun : (fun j => lineChars cg (st.charIdx + n + j * n) n) =
          ((fun j => lineChars cg (st.charIdx + j * n) n) ∘ Nat.succ) := by
        funext j
        simp only [Function.comp_apply]
        congr 1
        simp only [Nat.succ_eq_add_one]
        ring
      simp only [Except.ok.injEq, Prod.mk.injEq, GenState.mk.injEq]
      refine ⟨?_, by ring, trivial⟩
      rw [List.range_succ_eq_map, List.map_cons, List.flatten_cons, List.map_map, ← hfun]
      congr 1
      simp

theorem flatten_lines_length (cg : Nat → Char) (n : Nat) :
    ∀ k base,
      (((List.range k).map fun j => lineChars cg (base + j * n) n).flatten).length =
        k * (n + 1) := by
  intro k
  induction k with
  | zero => intro base; simp
  | succ k ih =>
      intro base
      rw [List.range_succ, List.map_append, List.flatten_append, List.length_append,
        ih base]
      simp [lineChars_length, Nat.succ_mul]

/-! ## Error propagation through `build_sample` -/

theorem build_sample_error (ll : LineLength) (sl : SampleLength)
    (cg : Nat → Char) (rnd : Nat → Nat) (e : GenError)
    (h : build_sample ll sl cg rnd = .error e) : e = .invalidLengthPolicy := by
  cases sl with
  | Lines n =>
      rw [build_sample] at h
      split at h
      · rename_i e2 hl
        simp only [Except.error.injEq] at h
        subst h
        exact linesLoop_error ll cg rnd n ⟨0, 0⟩ e2 hl
      · simp at h
  | Characters limit =>
      rw [build_sample] at h
      split at h
      · rename_i e2 hl
        simp only [Except.error.injEq] at h
        subst h
        exact sampleLoop_error ll cg rnd (max_line_length ll) limit limit 0 ⟨0, 0⟩ e2 hl
      · rename_i out w2 stA hl
        split at h
        · rename_i hw
          have h1 : checkedSub limit w2 = .ok (limit - w2) := by
            rw [checkedSub, if_pos (show w2 ≤ limit by omega)]
          simp only [h1] at h
          have h2 : checkedSub (limit - w2) 1 = .ok (limit - w2 - 1) := by
            rw [checkedSub, if_pos (show 1 ≤ limit - w2 by omega)]
          simp only [h2] at h
          have hbl : build_line (.Fixed (limit - w2 - 1)) cg rnd stA =
              .ok (⟨lineChars cg stA.charIdx (limit - w2 - 1), limit - w2 - 1 + 1⟩,
                ⟨stA.charIdx + (limit - w2 - 1), stA.drawIdx⟩) := rfl
          simp only [hbl] at h
          simp at h
        · simp at h

/-! ## Claims C4 to C7 and C10: the line generator -/

/-- Claim C4: for every n and every character source, build_line under Fixed n
succeeds and returns a line whose payload is exactly the n characters drawn
from the source, whose total length is n + 1 (both as stored and as the
character count of the string), and which ends in the terminator; n = 0 is
valid and yields a line containing only the terminator. -/
theorem c4_fixed_line (n : Nat) (cg : Nat → Char) (rnd : Nat → Nat)
    (st : GenState) :
    ∃ line st2, build_line (.Fixed n) cg rnd st = .ok (line, st2) ∧
      line.string = ((List.range n).map fun i => cg (st.charIdx + i)) ++ ['\n'] ∧
      line.string.length = n + 1 ∧ line.length = n + 1 ∧
      line.string.getLast? = some '\n' := by
  refine ⟨_, _, rfl, rfl, ?_, rfl, ?_⟩
  · exact lineChars_length cg st.charIdx n
  · exact List.getLast?_concat _

/-- Claim C5: for every lo < hi, every random realization and every character
source, build_line under Range lo hi succeeds; the payload length
p = lo + d % (hi - lo), where d is the single raw draw consumed, satisfies
lo ≤ p < hi; the stored length and the character count are both p + 1; the
payload is p characters from the source determined by that one draw; and
exactly one draw is consumed by the call (the length is chosen once per call,
not resampled per character). -/
theorem c5_ranged_line (lo hi : Nat) (cg : Nat → Char) (rnd : Nat → Nat)
    (st : GenState) (h : lo < hi) :
    ∃ line st2, build_line (.Range lo hi) cg rnd st = .ok (line, st2) ∧
      lo ≤ lo + rnd st.drawIdx % (hi - lo) ∧
      lo + rnd st.drawIdx % (hi - lo) < hi ∧
      line.length = lo + rnd st.drawIdx % (hi - lo) + 1 ∧
      line.string =
        ((List.range (lo + rnd st.drawIdx % (hi - lo))).map
          fun i => cg (st.charIdx + i)) ++ ['\n'] ∧
      line.string.length = line.length ∧
      st2.drawIdx = st.drawIdx + 1 ∧
      st2.charIdx = st.charIdx + (lo + rnd st.drawIdx % (hi - lo)) := by
  have hm : rnd st.drawIdx % (hi - lo) < hi - lo := Nat.mod_lt _ (by omega)
  refine ⟨_, _, build_line_range_eq lo hi cg rnd st h, by omega, by omega,
    rfl, rfl, ?_, rfl, rfl⟩
  exact lineChars_length cg st.charIdx _

/-- Claim C5 witness: the theorem applied to Range 2 5 with raw draw 4. -/
theorem c5_ranged_line_witness :
    ∃ line st2,
      build_line (.Range 2 5) (fun _ => 'a') (fun _ => 4) ⟨0, 0⟩ = .ok (line, st2) ∧
      2 ≤ 2 + 4 % (5 - 2) ∧ 2 + 4 % (5 - 2) < 5 ∧
      line.length = 2 + 4 % (5 - 2) + 1 ∧
      line.string = ((List.range (2 + 4 % (5 - 2))).map fun _ => 'a') ++ ['\n'] ∧
      line.string.length = line.length ∧
      st2.drawIdx = 0 + 1 ∧ st2.charIdx = 0 + (2 + 4 % (5 - 2)) :=
  c5_ranged_line 2 5 (fun _ => 'a') (fun _ => 4) ⟨0, 0⟩ (by decide)

/-- Claim C6: for every Ranged policy with an empty or inverted interval
(hi ≤ lo, covering both lo = hi and lo > hi), build_line fails with the
invalidLengthPolicy condition at the start of the call, before any character
is read, without clamping or reinterpreting the range. -/
theorem c6_invalid_policy (lo hi : Nat) (cg : Nat → Char) (rnd : Nat → Nat)
    (st : GenState) (h : hi ≤ lo) :
    build_line (.Range lo hi) cg rnd st = .error .invalidLengthPolicy := by
  by_cases he : lo = hi
  · rw [build_line, if_pos he]
  · rw [build_line, if_neg he, fastrand_usize, if_neg (show ¬lo < hi by omega)]

/-- Claim C6 witness: the theorem applied to the empty interval Range 10 10. -/
theorem c6_invalid_policy_witness :
    build_line (.Range 10 10) (fun _ => 'a') (fun _ => 0) ⟨0, 0⟩ =
      .error .invalidLengthPolicy :=
  c6_invalid_policy 10 10 (fun _ => 'a') (fun _ => 0) ⟨0, 0⟩ (by decide)

/-- Claim C7: every line build_line returns under a given policy has total
length (both the stored length and the character count of the string) at most
the max_line_length bound that build_sample computes for that policy: n + 1
under Fixed n, and hi under Range lo hi. -/
theorem c7_line_within_max (ll : LineLength) (cg : Nat → Char) (rnd : Nat → Nat)
    (st : GenState) (line : Line) (st2 : GenState)
    (h : build_line ll cg rnd st = .ok (line, st2)) :
    line.length ≤ max_line_length ll ∧
      line.string.length ≤ max_line_length ll := by
  have hmax := build_line_le_max ll cg rnd st line st2 h
  obtain ⟨hstr, hpos⟩ := build_line_ok ll cg rnd st line st2 h
  have hsl : line.string.length = line.length := by
    rw [hstr, lineChars_length]
    omega
  exact ⟨hmax, by omega⟩

/-- Claim C7 witness: the theorem applied to a concrete Fixed 3 line. -/
theorem c7_line_within_max_witness :
    (4 : Nat) ≤ max_line_length (.Fixed 3) ∧
      (['c', 'c', 'c', '\n'] : List Char).length ≤ max_line_length (.Fixed 3) :=
  c7_line_within_max (.Fixed 3) (fun _ => 'c') (fun _ => 0) ⟨0, 0⟩
    ⟨['c', 'c', 'c', '\n'], 4⟩ ⟨3, 0⟩ rfl

/-- Claim C10: the n + 1 length computations of build_line (src line 186) and
max_line_length (src line 140) are machine-word arithmetic: below the maximum
usize value the wrapping computation agrees with the mathematical n + 1 that
the unbounded model uses, while at n = 2 ^ w - 1 (usize::MAX for word width w)
it wraps to 0 instead of producing n + 1, so Fixed n does not extend to that
input. -/
theorem c10_word_length_overflow (w n : Nat) :
    (n + 1 < 2 ^ w → usizeSucc w n = max_line_length (.Fixed n)) ∧
      usizeSucc w (2 ^ w - 1) = 0 ∧
      usizeSucc w (2 ^ w - 1) ≠ max_line_length (.Fixed (2 ^ w - 1)) := by
  have hp : 0 < 2 ^ w := pow_pos (by norm_num) w
  have h0 : usizeSucc w (2 ^ w - 1) = 0 := by
    rw [usizeSucc, Nat.sub_add_cancel hp, Nat.mod_self]
  refine ⟨fun h => ?_, h0, ?_⟩
  · rw [usizeSucc, Nat.mod_eq_of_lt h]
    rfl
  · rw [h0]
    simp only [max_line_length]
    rw [Nat.sub_add_cancel hp]
    intro hc
    rw [← hc] at hp
    exact lt_irrefl 0 hp

/-- Claim C10 witness: the theorem applied at word width 8. -/
theorem c10_word_length_overflow_witness :
    usizeSucc 8 3 = max_line_length (.Fixed 3) ∧ usizeSucc 8 (2 ^ 8 - 1) = 0 :=
  ⟨(c10_word_length_overflow 8 3).1 (by decide), (c10_word_length_overflow 8 255).2.1⟩

/-! ## Claim C3: the generated line invariant -/

/-- Claim C3 counterexample: with a character source producing the two-byte
character é, build_line under Fixed 1 returns a line whose stored length is 2
while the byte size of its payload plus 1 is 3; this refutes the claim that
the length field equals the byte size of the payload plus 1 for every
character source (the code counts characters, not bytes). -/
theorem c3_byte_size_counterexample :
    (build_line (.Fixed 1) (fun _ => 'é') (fun _ => 0) ⟨0, 0⟩).map
        (fun p => (p.1.length, byteLen p.1.string.dropLast + 1)) = .ok (2, 3) ∧
      (2 : Nat) ≠ 3 :=
  ⟨rfl, by decide⟩

/-- Claim C3 (amended): every line build_line returns consists of a payload
followed by exactly one terminator, the stored length equals the number of
payload characters plus 1, and the last byte of the line is the terminator
byte 10; moreover the stored length equals the byte size of the payload plus 1
whenever every payload character is a single-byte (ASCII) character, though
not for arbitrary character sources. -/
theorem c3_line_invariant (ll : LineLength) (cg : Nat → Char) (rnd : Nat → Nat)
    (st : GenState) (line : Line) (st2 : GenState)
    (h : build_line ll cg rnd st = .ok (line, st2)) :
    ∃ payload, line.string = payload ++ ['\n'] ∧
      line.length = payload.length + 1 ∧
      (utf8Bytes line.string).getLast? = some 10 ∧
      ((∀ c ∈ payload, c.toNat < 128) → line.length = byteLen payload + 1) := by
  obtain ⟨hstr, hpos⟩ := build_line_ok ll cg rnd st line st2 h
  refine ⟨(List.range (line.length - 1)).map fun i => cg (st.charIdx + i),
    ?_, ?_, ?_, ?_⟩
  · rw [hstr]
    rfl
  · simp only [List.length_map, List.length_range]
    omega
  · rw [hstr, lineChars]
    exact utf8Bytes_terminator _
  · intro ha
    rw [byteLen_of_ascii _ ha]
    simp only [List.length_map, List.length_range]
    omega

/-- Claim C3 witness: the theorem applied to a concrete Fixed 2 line. -/
theorem c3_line_invariant_witness :
    ∃ payload, (['a', 'a', '\n'] : List Char) = payload ++ ['\n'] ∧
      (3 : Nat) = payload.length + 1 ∧
      (utf8Bytes ['a', 'a', '\n']).getLast? = some 10 ∧
      ((∀ c ∈ payload, c.toNat < 128) → (3 : Nat) = byteLen payload + 1) :=
  c3_line_invariant (.Fixed 2) (fun _ => 'a') (fun _ => 0) ⟨0, 0⟩
    ⟨['a', 'a', '\n'], 3⟩ ⟨2, 0⟩ rfl

/-! ## Claims C8 and C9: the line-count path -/

/-- Claim C8: under Lines k, build_sample makes exactly k build_line calls
and writes the k produced lines in order with no byte accounting: under
Fixed n the output is the concatenation of the k successive lines, the j-th
line reading characters j * n to j * n + n - 1 of the source and having total
length n + 1, so the whole output has length k * (n + 1); and k = 0 writes
nothing for every policy. -/
theorem c8_lines_path (cg : Nat → Char) (rnd : Nat → Nat) :
    (∀ n k, ∃ out, build_sample (.Fixed n) (.Lines k) cg rnd = .ok out ∧
        out = ((List.range k).map fun j => lineChars cg (j * n) n).flatten ∧
        out.length = k * (n + 1)) ∧
      ∀ ll, build_sample ll (.Lines 0) cg rnd = .ok [] := by
  constructor
  · intro n k
    have hl := linesLoop_fixed n cg rnd k ⟨0, 0⟩
    refine ⟨((List.range k).map fun j => lineChars cg (j * n) n).flatten,
      ?_, rfl, ?_⟩
    · rw [build_sample]
      simp only [hl]
      simp
    · have hlen := flatten_lines_length cg n k 0
      simpa using hlen
  · intro ll
    rw [build_sample]
    simp [linesLoop]

/-- Claim C9: with Fixed 3 and a character source constantly producing c, the
Lines 3 path and the Characters 12 path of build_sample both produce exactly
the 12 characters of ccc, newline, ccc, newline, ccc, newline — 12 bytes, as
every character involved is single-byte — for every random stream, so the
line-count and byte-count policies agree when they describe the same shape. -/
theorem c9_policies_agree (rnd : Nat → Nat) :
    build_sample (.Fixed 3) (.Lines 3) (fun _ => 'c') rnd = .ok ccc12 ∧
      build_sample (.Fixed 3) (.Characters 12) (fun _ => 'c') rnd = .ok ccc12 ∧
      ccc12.length = 12 ∧ byteLen ccc12 = 12 :=
  ⟨rfl, rfl, rfl, rfl⟩

/-! ## Claims C1 and C2: the byte-count path -/

/-- Claim C1 counterexample: with a character source producing the two-byte
character é, build_sample under Fixed 1 and Characters 5 succeeds but writes
7 bytes, refuting the claim that the total byte length equals the limit for
every character source; the total character count is still exactly 5. -/
theorem c1_byte_length_counterexample :
    (build_sample (.Fixed 1) (.Characters 5) (fun _ => 'é') (fun _ => 0)).map
        byteLen = .ok 7 ∧
      (7 : Nat) ≠ 5 ∧
      (build_sample (.Fixed 1) (.Characters 5) (fun _ => 'é') (fun _ => 0)).map
        List.length = .ok 5 :=
  ⟨rfl, by decide, rfl⟩

/-- Claim C1 (amended): for every valid line policy (Fixed n, or Range lo hi
with lo < hi), every limit, every character source and every random stream,
build_sample under Characters limit succeeds and writes output whose total
character count equals limit exactly, including limit = 0 (empty output) and
limits that do not divide evenly into whole lines; the total byte length also
equals limit whenever every character the source produces is a single-byte
(ASCII) character — but not for arbitrary multi-byte character sources. -/
theorem c1_characters_exact_total (ll : LineLength) (cg : Nat → Char)
    (rnd : Nat → Nat) (limit : Nat) (h : ValidPolicy ll) :
    ∃ out, build_sample ll (.Characters limit) cg rnd = .ok out ∧
      out.length = limit ∧
      ((∀ i, (cg i).toNat < 128) → byteLen out = limit) := by
  obtain ⟨out, w2, st2, hloop⟩ :=
    sampleLoop_ok_of_valid ll cg rnd (max_line_length ll) limit h limit 0 ⟨0, 0⟩
  obtain ⟨hlen, hle, hlt, hmem⟩ :=
    sampleLoop_invariant ll cg rnd (max_line_length ll) limit
      (fun st line st2 hh => build_line_le_max ll cg rnd st line st2 hh)
      limit 0 ⟨0, 0⟩ out w2 st2 hloop
  by_cases hpos : 0 < limit
  · have hw : w2 < limit := hlt hpos
    have h1 : checkedSub limit w2 = .ok (limit - w2) := by
      rw [checkedSub, if_pos (show w2 ≤ limit by omega)]
    have h2 : checkedSub (limit - w2) 1 = .ok (limit - w2 - 1) := by
      rw [checkedSub, if_pos (show 1 ≤ limit - w2 by omega)]
    have hbl : build_line (.Fixed (limit - w2 - 1)) cg rnd st2 =
        .ok (⟨lineChars cg st2.charIdx (limit - w2 - 1), limit - w2 - 1 + 1⟩,
          ⟨st2.charIdx + (limit - w2 - 1), st2.drawIdx⟩) := rfl
    refine ⟨out ++ lineChars cg st2.charIdx (limit - w2 - 1), ?_, ?_, ?_⟩
    · rw [build_sample]
      simp [hloop, hw, h1, h2, hbl]
    · rw [List.length_append, lineChars_length]
      omega
    · intro ha
      rw [byteLen_of_ascii]
      · rw [List.length_append, lineChars_length]
        omega
      · intro c hc
        rcases List.mem_append.mp hc with hc | hc
        · rcases hmem c hc with rfl | ⟨i, rfl⟩
          · decide
          · exact ha i
        · rcases mem_lineChars c cg st2.charIdx (limit - w2 - 1) hc with rfl | ⟨i, rfl⟩
          · decide
          · exact ha i
  · have h0 : limit = 0 := by omega
    subst h0
    refine ⟨[], ?_, rfl, fun _ => rfl⟩
    rw [build_sample]
    simp [sampleLoop]

/-- Claim C1 witness: the theorem applied to the ranged policy Range 2 5 with
limit 9 and a constant ASCII source. -/
theorem c1_characters_exact_total_witness :
    ∃ out,
      build_sample (.Range 2 5) (.Characters 9) (fun _ => 'c') (fun _ => 1) =
        .ok out ∧
      out.length = 9 ∧
      ((∀ i : Nat, ('c' : Char).toNat < 128) → byteLen out = 9) :=
  c1_characters_exact_total (.Range 2 5) (fun _ => 'c') (fun _ => 1) 9
    (show (2 : Nat) < 5 by decide)

/-- Claim C2: in the Characters path of build_sample, the running total at
loop exit is strictly below the limit whenever it entered the loop below the
limit (the loop starts at 0, so for limit > 0 the exit total is strictly below
limit and written = limit can only happen when limit = 0); consequently the
final-line payload computation limit - written - 1 never underflows and
build_sample never returns the defensive arithmeticUnderflow error, for any
policy, sample length, character source and random stream. -/
theorem c2_loop_exit_no_underflow :
    (∀ ll cg rnd limit fuel w0 st out w2 st2,
        sampleLoop ll cg rnd (max_line_length ll) limit fuel w0 st =
          .ok (out, w2, st2) →
        w0 < limit → w2 < limit) ∧
      ∀ ll sl cg rnd, build_sample ll sl cg rnd ≠ .error .arithmeticUnderflow := by
  constructor
  · intro ll cg rnd limit fuel w0 st out w2 st2 hloop hw0
    exact (sampleLoop_invariant ll cg rnd (max_line_length ll) limit
      (fun st line st2 hh => build_line_le_max ll cg rnd st line st2 hh)
      fuel w0 st out w2 st2 hloop).2.2.1 hw0
  · intro ll sl cg rnd hcontra
    exact GenError.noConfusion
      (build_sample_error ll sl cg rnd .arithmeticUnderflow hcontra)

/-- Claim C2 witness: the loop under Fixed 3 with limit 12 exits at total 8,
strictly below 12, and the corresponding build_sample run does not underflow. -/
theorem c2_loop_exit_no_underflow_witness :
    (8 : Nat) < 12 ∧
      build_sample (.Fixed 3) (.Characters 12) (fun _ => 'c') (fun _ => 0) ≠
        .error .arithmeticUnderflow :=
  ⟨c2_loop_exit_no_underflow.1 (.Fixed 3) (fun _ => 'c') (fun _ => 0) 12 12 0
      ⟨0, 0⟩ ['c', 'c', 'c', '\n', 'c', 'c', 'c', '\n'] 8 ⟨6, 0⟩ rfl (by decide),
    c2_loop_exit_no_underflow.2 (.Fixed 3) (.Characters 12) (fun _ => 'c')
      (fun _ => 0)⟩

end Mksample
